import Mathlib

/-!
# Verification of the foilgen NACA 4-digit airfoil generator

Shallow embedding of `src/foilgen.py` over exact arithmetic: the Python
floats are modelled as real numbers (`ℝ`), the code parser works over `ℚ`
so that it stays executable.  Each function below mirrors the Python
function of the same name; array (numpy) operations are modelled as `List`
operations, with elementwise formulas factored into `*_pt` helpers whose
bodies are the Python expressions evaluated at one parameter value.
-/

/-! ## CodeParser (`parse_naca`, foilgen.py lines 9-16) -/

/-- Python `str.strip()` on a character list: drop leading and trailing
whitespace (modelled with ASCII whitespace). -/
def pyStrip (s : List Char) : List Char :=
  ((s.dropWhile Char.isWhitespace).reverse.dropWhile Char.isWhitespace).reverse

/-- Numeric value of a decimal digit character (`int(c)` for a digit). -/
def digitVal (c : Char) : ℕ := c.toNat - 48

/-- `parse_naca(code)`: strip the string, require exactly 4 decimal digits,
return `(m, p, t) = (digit1/100, digit2/10, (10*digit3+digit4)/100)`;
`none` models the raised `ValueError("Input must be 4 digits!")`. -/
def parse_naca (code : String) : Option (ℚ × ℚ × ℚ) :=
  match pyStrip code.data with
  | [a, b, c, d] =>
      if a.isDigit && b.isDigit && c.isDigit && d.isDigit then
        some ((digitVal a : ℚ) / 100, (digitVal b : ℚ) / 10,
              ((10 * digitVal c + digitVal d : ℕ) : ℚ) / 100)
      else none
  | _ => none

/-! ## Spacer (`cosine_spacing` lines 18-21, `compute_n_per_surface_from_total`
lines 146-154) -/

/-- `compute_n_per_surface_from_total(total)`: `max(3, ceil((total+1)/2))`. -/
def compute_n_per_surface_from_total (total : ℤ) : ℤ :=
  max 3 ⌈((total : ℚ) + 1) / 2⌉

/-- `cosine_spacing(n)`: `x_i = 0.5*(1 - cos(beta_i))` for
`beta = np.linspace(0, pi, n)`, i.e. `beta_i = pi*i/(n-1)`. -/
noncomputable def cosine_spacing (n : ℕ) : List ℝ :=
  (List.range n).map fun i : ℕ =>
    0.5 * (1 - Real.cos (Real.pi * (i : ℝ) / ((n : ℝ) - 1)))

/-! ## ProfileEvaluator (`thickness_distribution` lines 23-26,
`camber_line` lines 28-48), evaluated at one parameter value -/

/-- `thickness_distribution` at one parameter value; `np.clip(x, 0.0, None)`
is `max x 0`. -/
noncomputable def thickness_distribution (t x : ℝ) : ℝ :=
  5.0 * t * (0.2969 * Real.sqrt (max x 0) - 0.1260 * x - 0.3516 * x ^ 2
    + 0.2843 * x ^ 3 - 0.1015 * x ^ 4)

/-- Forward-segment camber formulas (mask `idx1`, lines 40-42):
`(yc, dyc)` for `x < p + 1e-12`. -/
noncomputable def camber_fwd (m p x : ℝ) : ℝ × ℝ :=
  ((m / p ^ 2) * (2 * p * x - x ^ 2), (2 * m / p ^ 2) * (p - x))

/-- Aft-segment camber formulas (mask `idx2`, lines 44-46). -/
noncomputable def camber_aft (m p x : ℝ) : ℝ × ℝ :=
  ((m / (1 - p) ^ 2) * ((1 - 2 * p) + 2 * p * x - x ^ 2),
   (2 * m / (1 - p) ^ 2) * (p - x))

/-- `camber_line` at one parameter value: the `m == 0.0 or p == 0.0` guard
returns zeros, otherwise the branch is chosen by `x < p + 1e-12`. -/
noncomputable def camber_line (m p x : ℝ) : ℝ × ℝ :=
  if m = 0 ∨ p = 0 then (0, 0)
  else if x < p + 1 / 10 ^ 12 then camber_fwd m p x
  else camber_aft m p x

/-! ## SurfaceComposer (`generate_naca4` lines 50-76) -/

/-- `theta = arctan(dyc)` at one parameter value. -/
noncomputable def theta_at (m p x : ℝ) : ℝ := Real.arctan (camber_line m p x).2

/-- `xu = x - yt*sin(theta)` at one parameter value. -/
noncomputable def xu_pt (m p t x : ℝ) : ℝ :=
  x - thickness_distribution t x * Real.sin (theta_at m p x)

/-- `yu = yc + yt*cos(theta)` at one parameter value. -/
noncomputable def yu_pt (m p t x : ℝ) : ℝ :=
  (camber_line m p x).1 + thickness_distribution t x * Real.cos (theta_at m p x)

/-- `xl = x + yt*sin(theta)` at one parameter value. -/
noncomputable def xl_pt (m p t x : ℝ) : ℝ :=
  x + thickness_distribution t x * Real.sin (theta_at m p x)

/-- `yl = yc - yt*cos(theta)` at one parameter value. -/
noncomputable def yl_pt (m p t x : ℝ) : ℝ :=
  (camber_line m p x).1 - thickness_distribution t x * Real.cos (theta_at m p x)

/-- The upper-surface point sequence `(xu, yu)` over a parameter sequence. -/
noncomputable def upper_surface (m p t : ℝ) (xs : List ℝ) : List (ℝ × ℝ) :=
  xs.map fun x => (xu_pt m p t x, yu_pt m p t x)

/-- The lower-surface point sequence `(xl, yl)` over a parameter sequence. -/
noncomputable def lower_surface (m p t : ℝ) (xs : List ℝ) : List (ℝ × ℝ) :=
  xs.map fun x => (xl_pt m p t x, yl_pt m p t x)

/-- Loop assembly, lines 63-74: reversed upper surface, then the lower
surface with its first point dropped (kept whole when `len(xl) <= 1`). -/
def assemble_loop (upper lower : List (ℝ × ℝ)) : List (ℝ × ℝ) :=
  upper.reverse ++ (if 1 < lower.length then lower.tail else lower)

/-- `generate_naca4(code, n_points_per_surface)`: parse the code, clamp the
per-surface count with `n = max(3, n_points_per_surface)`, sample, and
assemble the loop.  `none` models the parse failure propagating out. -/
noncomputable def generate_naca4 (code : String) (n_points_per_surface : ℕ) :
    Option (List (ℝ × ℝ)) :=
  (parse_naca code).map fun mpt =>
    assemble_loop
      (upper_surface (mpt.1 : ℝ) (mpt.2.1 : ℝ) (mpt.2.2 : ℝ)
        (cosine_spacing (max 3 n_points_per_surface)))
      (lower_surface (mpt.1 : ℝ) (mpt.2.1 : ℝ) (mpt.2.2 : ℝ)
        (cosine_spacing (max 3 n_points_per_surface)))

/-! ## Embedder (`map_to_3d` lines 78-98) -/

/-- The validated normal-axis selector of `map_to_3d`. -/
inductive Axis
  | X
  | Y
  | Z
deriving DecidableEq

/-- `map_to_3d(x2d, y2d, normal_axis, chord_length)`: the normal axis gets
the zero column, the other two are the chord-scaled 2D coordinates. -/
noncomputable def map_to_3d (pts : List (ℝ × ℝ)) (normal : Axis) (chord : ℝ) :
    List (ℝ × ℝ × ℝ) :=
  pts.map fun q =>
    match normal with
    | Axis.X => (0, chord * q.1, chord * q.2)
    | Axis.Y => (chord * q.1, 0, chord * q.2)
    | Axis.Z => (chord * q.1, chord * q.2, 0)

/-! ## Validator (`validate_geometry` lines 100-108)

NaN and infinity do not exist in the real-number model (`np.isfinite` holds
of every modelled coordinate), so only the degeneracy check remains. -/

/-- `np.max` of a column (nonempty in every use; `0` pads the empty case). -/
noncomputable def listMax : List ℝ → ℝ
  | [] => 0
  | x :: xs => xs.foldl max x

/-- `np.min` of a column (nonempty in every use; `0` pads the empty case). -/
noncomputable def listMin : List ℝ → ℝ
  | [] => 0
  | x :: xs => xs.foldl min x

/-- Bounding-box span of the X column. -/
noncomputable def spanX (pts : List (ℝ × ℝ × ℝ)) : ℝ :=
  listMax (pts.map fun q => q.1) - listMin (pts.map fun q => q.1)

/-- Bounding-box span of the Y column. -/
noncomputable def spanY (pts : List (ℝ × ℝ × ℝ)) : ℝ :=
  listMax (pts.map fun q => q.2.1) - listMin (pts.map fun q => q.2.1)

/-- Bounding-box span of the Z column. -/
noncomputable def spanZ (pts : List (ℝ × ℝ × ℝ)) : ℝ :=
  listMax (pts.map fun q => q.2.2) - listMin (pts.map fun q => q.2.2)

/-- `validate_geometry(coords)` succeeds (returns `True`): the degeneracy
error `np.all(spans == 0)` does not fire. -/
def validate_geometry (pts : List (ℝ × ℝ × ℝ)) : Prop :=
  ¬ (spanX pts = 0 ∧ spanY pts = 0 ∧ spanZ pts = 0)

/-! ## Basic list lemmas for `listMax`/`listMin` -/

theorem foldl_max_le_iff {l : List ℝ} {a b : ℝ} :
    l.foldl max a ≤ b ↔ a ≤ b ∧ ∀ x ∈ l, x ≤ b := by
  induction l generalizing a with
  | nil => simp
  | cons y ys ih =>
      simp only [List.foldl_cons, ih, max_le_iff, List.mem_cons]
      constructor
      · rintro ⟨⟨h1, h2⟩, h3⟩
        exact ⟨h1, fun x hx => hx.elim (fun hxy => hxy ▸ h2) (h3 x)⟩
      · rintro ⟨h1, h2⟩
        exact ⟨⟨h1, h2 y (Or.inl rfl)⟩, fun x hx => h2 x (Or.inr hx)⟩

theorem le_foldl_min_iff {l : List ℝ} {a b : ℝ} :
    b ≤ l.foldl min a ↔ b ≤ a ∧ ∀ x ∈ l, b ≤ x := by
  induction l generalizing a with
  | nil => simp
  | cons y ys ih =>
      simp only [List.foldl_cons, ih, le_min_iff, List.mem_cons]
      constructor
      · rintro ⟨⟨h1, h2⟩, h3⟩
        exact ⟨h1, fun x hx => hx.elim (fun hxy => hxy ▸ h2) (h3 x)⟩
      · rintro ⟨h1, h2⟩
        exact ⟨⟨h1, h2 y (Or.inl rfl)⟩, fun x hx => h2 x (Or.inr hx)⟩

theorem listMax_le {l : List ℝ} {b : ℝ} (hne : l ≠ []) (hb : ∀ x ∈ l, x ≤ b) :
    listMax l ≤ b := by
  cases l with
  | nil => exact absurd rfl hne
  | cons y ys =>
      exact foldl_max_le_iff.mpr
        ⟨hb y (List.mem_cons_self y ys), fun x hx => hb x (List.mem_cons_of_mem y hx)⟩

theorem le_listMax {l : List ℝ} {x : ℝ} (hx : x ∈ l) : x ≤ listMax l := by
  cases l with
  | nil => cases hx
  | cons y ys =>
      have h := (foldl_max_le_iff (l := ys) (a := y) (b := ys.foldl max y)).mp le_rfl
      rcases List.mem_cons.mp hx with h1 | h1
      · exact h1 ▸ h.1
      · exact h.2 x h1

theorem le_listMin {l : List ℝ} {b : ℝ} (hne : l ≠ []) (hb : ∀ x ∈ l, b ≤ x) :
    b ≤ listMin l := by
  cases l with
  | nil => exact absurd rfl hne
  | cons y ys =>
      exact le_foldl_min_iff.mpr
        ⟨hb y (List.mem_cons_self y ys), fun x hx => hb x (List.mem_cons_of_mem y hx)⟩

theorem listMin_le {l : List ℝ} {x : ℝ} (hx : x ∈ l) : listMin l ≤ x := by
  cases l with
  | nil => cases hx
  | cons y ys =>
      have h := (le_foldl_min_iff (l := ys) (a := y) (b := ys.foldl min y)).mp le_rfl
      rcases List.mem_cons.mp hx with h1 | h1
      · exact h1 ▸ h.1
      · exact h.2 x h1

/-! ## Symmetric-branch helpers: the `m == 0 or p == 0` guard of
`camber_line` makes both surfaces thickness-only -/

theorem camber_line_zero {m p : ℝ} (h : m = 0 ∨ p = 0) (x : ℝ) :
    camber_line m p x = (0, 0) := by
  unfold camber_line
  rw [if_pos h]

theorem theta_at_zero {m p : ℝ} (h : m = 0 ∨ p = 0) (x : ℝ) :
    theta_at m p x = 0 := by
  unfold theta_at
  rw [camber_line_zero h]
  exact Real.arctan_zero

theorem xu_pt_symm {m p : ℝ} (h : m = 0 ∨ p = 0) (t x : ℝ) :
    xu_pt m p t x = x := by
  unfold xu_pt
  rw [theta_at_zero h, Real.sin_zero, mul_zero, sub_zero]

theorem xl_pt_symm {m p : ℝ} (h : m = 0 ∨ p = 0) (t x : ℝ) :
    xl_pt m p t x = x := by
  unfold xl_pt
  rw [theta_at_zero h, Real.sin_zero, mul_zero, add_zero]

theorem yu_pt_symm {m p : ℝ} (h : m = 0 ∨ p = 0) (t x : ℝ) :
    yu_pt m p t x = thickness_distribution t x := by
  unfold yu_pt
  rw [theta_at_zero h, Real.cos_zero, camber_line_zero h, mul_one]
  exact zero_add _

theorem yl_pt_symm {m p : ℝ} (h : m = 0 ∨ p = 0) (t x : ℝ) :
    yl_pt m p t x = -thickness_distribution t x := by
  unfold yl_pt
  rw [theta_at_zero h, Real.cos_zero, camber_line_zero h, mul_one]
  exact zero_sub _

/-! ## `cosine_spacing` helpers -/

theorem cosine_spacing_length (n : ℕ) : (cosine_spacing n).length = n := by
  unfold cosine_spacing
  rw [List.length_map, List.length_range]

theorem cosine_spacing_get? {n i : ℕ} (h : i < n) :
    (cosine_spacing n).get? i =
      some (0.5 * (1 - Real.cos (Real.pi * (i : ℝ) / ((n : ℝ) - 1)))) := by
  unfold cosine_spacing
  rw [List.get?_eq_getElem?, List.getElem?_map, List.getElem?_range h]
  rfl

theorem mem_cosine_spacing_iff {n : ℕ} {x : ℝ} :
    x ∈ cosine_spacing n ↔
      ∃ i, i < n ∧ x = 0.5 * (1 - Real.cos (Real.pi * (i : ℝ) / ((n : ℝ) - 1))) := by
  unfold cosine_spacing
  rw [List.mem_map]
  constructor
  · rintro ⟨i, hi, rfl⟩
    exact ⟨i, List.mem_range.mp hi, rfl⟩
  · rintro ⟨i, hi, rfl⟩
    exact ⟨i, List.mem_range.mpr hi, rfl⟩

theorem cosine_spacing_mem_Icc {n : ℕ} {x : ℝ} (hx : x ∈ cosine_spacing n) :
    0 ≤ x ∧ x ≤ 1 := by
  rcases mem_cosine_spacing_iff.mp hx with ⟨i, _, rfl⟩
  have h1 := Real.cos_le_one (Real.pi * i / ((n : ℝ) - 1))
  have h2 := Real.neg_one_le_cos (Real.pi * i / ((n : ℝ) - 1))
  constructor <;> nlinarith

theorem zero_mem_cosine_spacing {n : ℕ} (h : 1 ≤ n) :
    (0 : ℝ) ∈ cosine_spacing n := by
  rw [mem_cosine_spacing_iff]
  refine ⟨0, h, ?_⟩
  norm_num

theorem one_mem_cosine_spacing {n : ℕ} (h : 2 ≤ n) :
    (1 : ℝ) ∈ cosine_spacing n := by
  rw [mem_cosine_spacing_iff]
  refine ⟨n - 1, by omega, ?_⟩
  have hcast : ((n - 1 : ℕ) : ℝ) = (n : ℝ) - 1 := by
    have : (1 : ℕ) ≤ n := by omega
    push_cast [this]
    ring
  have hne : (n : ℝ) - 1 ≠ 0 := by
    have : (2 : ℝ) ≤ (n : ℝ) := by exact_mod_cast h
    linarith
  rw [hcast, mul_div_assoc, div_self hne, mul_one, Real.cos_pi]
  norm_num

/-! ## Concrete parses and the generator unfolded -/

theorem parse_naca_2412 : parse_naca "2412" = some (1/50, 2/5, 3/25) := by
  unfold parse_naca
  rw [show pyStrip "2412".data = ['2', '4', '1', '2'] by decide]
  refine Eq.trans (if_pos (by decide)) ?_
  rw [show digitVal '2' = 2 by decide, show digitVal '4' = 4 by decide,
      show digitVal '1' = 1 by decide]
  norm_num

theorem parse_naca_0012 : parse_naca "0012" = some (0, 0, 3/25) := by
  unfold parse_naca
  rw [show pyStrip "0012".data = ['0', '0', '1', '2'] by decide]
  refine Eq.trans (if_pos (by decide)) ?_
  rw [show digitVal '0' = 0 by decide, show digitVal '1' = 1 by decide,
      show digitVal '2' = 2 by decide]
  norm_num

theorem parse_naca_1012 : parse_naca "1012" = some (1/100, 0, 3/25) := by
  unfold parse_naca
  rw [show pyStrip "1012".data = ['1', '0', '1', '2'] by decide]
  refine Eq.trans (if_pos (by decide)) ?_
  rw [show digitVal '0' = 0 by decide, show digitVal '1' = 1 by decide,
      show digitVal '2' = 2 by decide]
  norm_num

theorem parse_naca_0000 : parse_naca "0000" = some (0, 0, 0) := by
  unfold parse_naca
  rw [show pyStrip "0000".data = ['0', '0', '0', '0'] by decide]
  refine Eq.trans (if_pos (by decide)) ?_
  rw [show digitVal '0' = 0 by decide]
  norm_num

theorem generate_naca4_eq {code : String} {mpt : ℚ × ℚ × ℚ} {n : ℕ}
    (h : parse_naca code = some mpt) :
    generate_naca4 code n = some
      (assemble_loop
        (upper_surface (mpt.1 : ℝ) (mpt.2.1 : ℝ) (mpt.2.2 : ℝ)
          (cosine_spacing (max 3 n)))
        (lower_surface (mpt.1 : ℝ) (mpt.2.1 : ℝ) (mpt.2.2 : ℝ)
          (cosine_spacing (max 3 n)))) := by
  unfold generate_naca4
  rw [h]
  rfl

/-! ## Loop structure lemmas -/

theorem upper_surface_length (m p t : ℝ) (xs : List ℝ) :
    (upper_surface m p t xs).length = xs.length := by
  unfold upper_surface
  rw [List.length_map]

theorem lower_surface_length (m p t : ℝ) (xs : List ℝ) :
    (lower_surface m p t xs).length = xs.length := by
  unfold lower_surface
  rw [List.length_map]

theorem assemble_loop_eq_of_long {upper lower : List (ℝ × ℝ)}
    (h : 1 < lower.length) :
    assemble_loop upper lower = upper.reverse ++ lower.tail := by
  unfold assemble_loop
  rw [if_pos h]

theorem assemble_loop_length_of_long {upper lower : List (ℝ × ℝ)}
    (h : 1 < lower.length) :
    (assemble_loop upper lower).length = upper.length + (lower.length - 1) := by
  rw [assemble_loop_eq_of_long h, List.length_append, List.length_reverse,
      List.length_tail]

theorem mem_assemble_loop {upper lower : List (ℝ × ℝ)} {q : ℝ × ℝ}
    (h : q ∈ assemble_loop upper lower) : q ∈ upper ∨ q ∈ lower := by
  unfold assemble_loop at h
  rcases List.mem_append.mp h with h1 | h1
  · exact Or.inl (List.mem_reverse.mp h1)
  · split at h1
    · exact Or.inr (List.mem_of_mem_tail h1)
    · exact Or.inr h1

theorem mem_assemble_loop_of_mem_upper {upper : List (ℝ × ℝ)}
    (lo : List (ℝ × ℝ)) {q : ℝ × ℝ} (h : q ∈ upper) :
    q ∈ assemble_loop upper lo :=
  List.mem_append_left _ (List.mem_reverse.mpr h)

theorem mem_upper_surface {m p t x : ℝ} {xs : List ℝ} (hx : x ∈ xs) :
    (xu_pt m p t x, yu_pt m p t x) ∈ upper_surface m p t xs :=
  List.mem_map_of_mem _ hx

theorem mem_upper_surface_elim {m p t : ℝ} {xs : List ℝ} {q : ℝ × ℝ}
    (h : q ∈ upper_surface m p t xs) :
    ∃ x ∈ xs, q = (xu_pt m p t x, yu_pt m p t x) := by
  rcases List.mem_map.mp h with ⟨x, hx, rfl⟩
  exact ⟨x, hx, rfl⟩

theorem mem_lower_surface_elim {m p t : ℝ} {xs : List ℝ} {q : ℝ × ℝ}
    (h : q ∈ lower_surface m p t xs) :
    ∃ x ∈ xs, q = (xl_pt m p t x, yl_pt m p t x) := by
  rcases List.mem_map.mp h with ⟨x, hx, rfl⟩
  exact ⟨x, hx, rfl⟩

theorem generate_loop_length {code : String} {mpt : ℚ × ℚ × ℚ} {n : ℕ}
    (h : parse_naca code = some mpt) :
    ((generate_naca4 code n).getD []).length = 2 * max 3 n - 1 := by
  rw [generate_naca4_eq h, Option.getD_some]
  have hlow : 1 < (lower_surface (mpt.1 : ℝ) (mpt.2.1 : ℝ) (mpt.2.2 : ℝ)
      (cosine_spacing (max 3 n))).length := by
    rw [lower_surface_length, cosine_spacing_length]
    omega
  rw [assemble_loop_length_of_long hlow, upper_surface_length,
      lower_surface_length, cosine_spacing_length]
  omega

/-! ## `sin(arctan d)` facts -/

theorem one_le_sqrt_one_add_sq (d : ℝ) : 1 ≤ Real.sqrt (1 + d ^ 2) := by
  have h := Real.sqrt_le_sqrt (show (1 : ℝ) ≤ 1 + d ^ 2 by nlinarith [sq_nonneg d])
  rwa [Real.sqrt_one] at h

theorem abs_sin_arctan_le (d : ℝ) : |Real.sin (Real.arctan d)| ≤ |d| := by
  rw [Real.sin_arctan, abs_div]
  have h1 : 1 ≤ Real.sqrt (1 + d ^ 2) := one_le_sqrt_one_add_sq d
  rw [abs_of_pos (lt_of_lt_of_le one_pos h1)]
  exact div_le_self (abs_nonneg d) h1

theorem sin_arctan_neg {d : ℝ} (h : d < 0) : Real.sin (Real.arctan d) < 0 := by
  rw [Real.sin_arctan]
  exact div_neg_of_neg_of_pos h (lt_of_lt_of_le one_pos (one_le_sqrt_one_add_sq d))

/-! ## Concrete evaluations for the NACA 2412 profile -/

theorem thickness_2412_TE : thickness_distribution 0.12 1 = 63 / 50000 := by
  unfold thickness_distribution
  rw [show max (1 : ℝ) 0 = 1 from max_eq_left zero_le_one, Real.sqrt_one]
  norm_num

theorem dyc_2412_TE : (camber_line 0.02 0.4 1).2 = -(1 / 15) := by
  unfold camber_line
  rw [if_neg (by push_neg; constructor <;> norm_num)]
  rw [if_neg (by norm_num)]
  unfold camber_aft
  norm_num

theorem sin_arctan_dyc_2412_TE :
    Real.sin (Real.arctan (-(1 / 15) : ℝ)) ≤ -(2 / 45) := by
  rw [Real.sin_arctan]
  have h1 : Real.sqrt (1 + (-(1 / 15) : ℝ) ^ 2) ≤ 3 / 2 := by
    rw [show (3 / 2 : ℝ) = Real.sqrt ((3 / 2) ^ 2) from
      (Real.sqrt_sq (by norm_num)).symm]
    exact Real.sqrt_le_sqrt (by norm_num)
  have h2 : (1 : ℝ) ≤ Real.sqrt (1 + (-(1 / 15) : ℝ) ^ 2) :=
    one_le_sqrt_one_add_sq _
  rw [div_le_iff₀ (by linarith)]
  nlinarith

theorem xu_pt_2412_TE : 1 + 7 / 125000 ≤ xu_pt 0.02 0.4 0.12 1 := by
  unfold xu_pt theta_at
  rw [thickness_2412_TE, dyc_2412_TE]
  have h := sin_arctan_dyc_2412_TE
  nlinarith

theorem thickness_at_zero (t : ℝ) : thickness_distribution t 0 = 0 := by
  unfold thickness_distribution
  rw [show max (0 : ℝ) 0 = 0 from max_self 0, Real.sqrt_zero]
  ring

theorem xu_pt_at_zero (m p t : ℝ) : xu_pt m p t 0 = 0 := by
  unfold xu_pt
  rw [thickness_at_zero]
  ring

/-! ## Bounds on the thickness polynomial and the NACA 2412 camber slope -/

theorem naca_poly_lower {s : ℝ} (h0 : 0 ≤ s) (h1 : s ≤ 1) :
    -(1807 / 10000) ≤
      0.2969 * s - 0.1260 * s ^ 2 - 0.3516 * s ^ 4 + 0.2843 * s ^ 6
        - 0.1015 * s ^ 8 := by
  nlinarith [mul_nonneg (sub_nonneg.mpr h1)
      (show (0 : ℝ) ≤ 0.3516 * s ^ 3 + 0.3516 * s ^ 2 + 0.4776 * s + 0.1807 by
        nlinarith [pow_nonneg h0 3, pow_nonneg h0 2, h0]),
    mul_nonneg (pow_nonneg h0 6) (show (0 : ℝ) ≤ 1 - s ^ 2 by nlinarith),
    pow_nonneg h0 6, pow_nonneg h0 8]

theorem naca_poly_upper {s : ℝ} (h0 : 0 ≤ s) (h1 : s ≤ 1) :
    0.2969 * s - 0.1260 * s ^ 2 - 0.3516 * s ^ 4 + 0.2843 * s ^ 6
      - 0.1015 * s ^ 8 ≤ 1807 / 10000 := by
  nlinarith [mul_nonneg (sub_nonneg.mpr h1)
      (show (0 : ℝ) ≤ 0.1709 - 0.126 * s by nlinarith),
    mul_nonneg (pow_nonneg h0 4) (show (0 : ℝ) ≤ 1 - s ^ 2 by nlinarith),
    pow_nonneg h0 4, pow_nonneg h0 8]

theorem thickness_abs_bound {t x : ℝ} (ht : 0 ≤ t) (h0 : 0 ≤ x) (h1 : x ≤ 1) :
    |thickness_distribution t x| ≤ 5 * t * (1807 / 10000) := by
  unfold thickness_distribution
  rw [max_eq_left h0]
  have hs0 : 0 ≤ Real.sqrt x := Real.sqrt_nonneg x
  have hs1 : Real.sqrt x ≤ 1 := Real.sqrt_le_one.mpr h1
  have hx2 : Real.sqrt x ^ 2 = x := Real.sq_sqrt h0
  set s := Real.sqrt x with hs
  rw [← hx2]
  have hpl := naca_poly_lower hs0 hs1
  have hpu := naca_poly_upper hs0 hs1
  rw [abs_le]
  constructor
  · nlinarith [mul_le_mul_of_nonneg_left hpl (show (0 : ℝ) ≤ 5 * t by linarith)]
  · nlinarith [mul_le_mul_of_nonneg_left hpu (show (0 : ℝ) ≤ 5 * t by linarith)]

theorem dyc_2412_bound {x : ℝ} (h0 : 0 ≤ x) (h1 : x ≤ 1) :
    |(camber_line 0.02 0.4 x).2| ≤ 1 / 10 := by
  unfold camber_line
  rw [if_neg (by push_neg; constructor <;> norm_num)]
  split_ifs with hx
  · unfold camber_fwd
    simp only
    rw [abs_le]
    constructor <;> nlinarith
  · unfold camber_aft
    simp only
    push_neg at hx
    rw [abs_le]
    constructor <;> nlinarith

theorem offset_2412_bound {x : ℝ} (h0 : 0 ≤ x) (h1 : x ≤ 1) :
    |thickness_distribution 0.12 x * Real.sin (theta_at 0.02 0.4 x)| ≤
      11 / 1000 := by
  rw [abs_mul]
  have h2 : |thickness_distribution 0.12 x| ≤ 5 * 0.12 * (1807 / 10000) :=
    thickness_abs_bound (by norm_num) h0 h1
  have h3 : |Real.sin (theta_at 0.02 0.4 x)| ≤ 1 / 10 := by
    unfold theta_at
    exact le_trans (abs_sin_arctan_le _) (dyc_2412_bound h0 h1)
  have h4 := mul_le_mul h2 h3 (abs_nonneg _) (by norm_num : (0:ℝ) ≤ 5 * 0.12 * (1807 / 10000))
  nlinarith

theorem xu_pt_2412_bounds {x : ℝ} (h0 : 0 ≤ x) (h1 : x ≤ 1) :
    -(11 / 1000) ≤ xu_pt 0.02 0.4 0.12 x ∧
      xu_pt 0.02 0.4 0.12 x ≤ 1 + 11 / 1000 := by
  have h := abs_le.mp (offset_2412_bound h0 h1)
  unfold xu_pt
  constructor <;> nlinarith [h.1, h.2]

theorem xl_pt_2412_bounds {x : ℝ} (h0 : 0 ≤ x) (h1 : x ≤ 1) :
    -(11 / 1000) ≤ xl_pt 0.02 0.4 0.12 x ∧
      xl_pt 0.02 0.4 0.12 x ≤ 1 + 11 / 1000 := by
  have h := abs_le.mp (offset_2412_bound h0 h1)
  unfold xl_pt
  constructor <;> nlinarith [h.1, h.2]

/-! ## Projection lemmas for `map_to_3d` and span facts -/

theorem map_to_3d_Z_x_col (pts : List (ℝ × ℝ)) (chord : ℝ) :
    (map_to_3d pts Axis.Z chord).map (fun q => q.1) =
      pts.map (fun q => chord * q.1) := by
  unfold map_to_3d
  rw [List.map_map]
  rfl

theorem map_to_3d_Z_z_col (pts : List (ℝ × ℝ)) (chord : ℝ) :
    (map_to_3d pts Axis.Z chord).map (fun q => q.2.2) =
      List.replicate pts.length (0 : ℝ) := by
  unfold map_to_3d
  rw [List.map_map]
  exact List.map_const' pts 0

theorem map_to_3d_length (pts : List (ℝ × ℝ)) (ax : Axis) (chord : ℝ) :
    (map_to_3d pts ax chord).length = pts.length := by
  unfold map_to_3d
  rw [List.length_map]

theorem span_zero_iff {l : List ℝ} (hne : l ≠ []) :
    listMax l - listMin l = 0 ↔ ∀ x ∈ l, ∀ y ∈ l, x = y := by
  constructor
  · intro h x hx y hy
    have h1 := le_listMax hx
    have h2 := listMin_le hx
    have h3 := le_listMax hy
    have h4 := listMin_le hy
    linarith
  · intro h
    rcases l with _ | ⟨a, l'⟩
    · exact absurd rfl hne
    · have hc : a ∈ a :: l' := List.mem_cons_self a l'
      have hmax : listMax (a :: l') ≤ a :=
        listMax_le (List.cons_ne_nil a l') fun x hx => le_of_eq (h x hx a hc)
      have hmax' : a ≤ listMax (a :: l') := le_listMax hc
      have hmin : a ≤ listMin (a :: l') :=
        le_listMin (List.cons_ne_nil a l') fun x hx => ge_of_eq (h x hx a hc)
      have hmin' : listMin (a :: l') ≤ a := listMin_le hc
      linarith

/-! ## Validation succeeds on the symmetric-branch codes -/

theorem loop_x_symm {m p t : ℝ} (hsym : m = 0 ∨ p = 0) {xs : List ℝ} {q : ℝ × ℝ}
    (hq : q ∈ assemble_loop (upper_surface m p t xs) (lower_surface m p t xs)) :
    q.1 ∈ xs := by
  rcases mem_assemble_loop hq with h | h
  · rcases mem_upper_surface_elim h with ⟨x, hx, rfl⟩
    show xu_pt m p t x ∈ xs
    rw [xu_pt_symm hsym]
    exact hx
  · rcases mem_lower_surface_elim h with ⟨x, hx, rfl⟩
    show xl_pt m p t x ∈ xs
    rw [xl_pt_symm hsym]
    exact hx

theorem validate_symmetric_code {code : String} {mpt : ℚ × ℚ × ℚ} {n : ℕ}
    (h : parse_naca code = some mpt)
    (hsym : (mpt.1 : ℝ) = 0 ∨ (mpt.2.1 : ℝ) = 0) :
    validate_geometry (map_to_3d ((generate_naca4 code n).getD []) Axis.Z 1) := by
  rw [generate_naca4_eq h, Option.getD_some]
  rintro ⟨hX, -, -⟩
  have hn2 : 2 ≤ max 3 n := le_trans (by norm_num) (le_max_left 3 n)
  have hone : (1 : ℝ) ∈ cosine_spacing (max 3 n) := one_mem_cosine_spacing hn2
  have hzero : (0 : ℝ) ∈ cosine_spacing (max 3 n) :=
    zero_mem_cosine_spacing (le_trans (by norm_num) hn2)
  have hmem1 : ((1 : ℝ), yu_pt (mpt.1 : ℝ) (mpt.2.1 : ℝ) (mpt.2.2 : ℝ) 1) ∈
      assemble_loop
        (upper_surface (mpt.1 : ℝ) (mpt.2.1 : ℝ) (mpt.2.2 : ℝ)
          (cosine_spacing (max 3 n)))
        (lower_surface (mpt.1 : ℝ) (mpt.2.1 : ℝ) (mpt.2.2 : ℝ)
          (cosine_spacing (max 3 n))) := by
    have := mem_assemble_loop_of_mem_upper
      (lower_surface (mpt.1 : ℝ) (mpt.2.1 : ℝ) (mpt.2.2 : ℝ)
        (cosine_spacing (max 3 n)))
      (mem_upper_surface (m := (mpt.1 : ℝ)) (p := (mpt.2.1 : ℝ))
        (t := (mpt.2.2 : ℝ)) hone)
    rwa [xu_pt_symm hsym] at this
  have hmem0 : ((0 : ℝ), yu_pt (mpt.1 : ℝ) (mpt.2.1 : ℝ) (mpt.2.2 : ℝ) 0) ∈
      assemble_loop
        (upper_surface (mpt.1 : ℝ) (mpt.2.1 : ℝ) (mpt.2.2 : ℝ)
          (cosine_spacing (max 3 n)))
        (lower_surface (mpt.1 : ℝ) (mpt.2.1 : ℝ) (mpt.2.2 : ℝ)
          (cosine_spacing (max 3 n))) := by
    have := mem_assemble_loop_of_mem_upper
      (lower_surface (mpt.1 : ℝ) (mpt.2.1 : ℝ) (mpt.2.2 : ℝ)
        (cosine_spacing (max 3 n)))
      (mem_upper_surface (m := (mpt.1 : ℝ)) (p := (mpt.2.1 : ℝ))
        (t := (mpt.2.2 : ℝ)) hzero)
    rwa [xu_pt_symm hsym] at this
  unfold spanX at hX
  rw [map_to_3d_Z_x_col] at hX
  have hin1 : (1 : ℝ) ∈ (assemble_loop
      (upper_surface (mpt.1 : ℝ) (mpt.2.1 : ℝ) (mpt.2.2 : ℝ)
        (cosine_spacing (max 3 n)))
      (lower_surface (mpt.1 : ℝ) (mpt.2.1 : ℝ) (mpt.2.2 : ℝ)
        (cosine_spacing (max 3 n)))).map (fun q => 1 * q.1) := by
    have := List.mem_map_of_mem (fun q : ℝ × ℝ => 1 * q.1) hmem1
    simpa using this
  have hin0 : (0 : ℝ) ∈ (assemble_loop
      (upper_surface (mpt.1 : ℝ) (mpt.2.1 : ℝ) (mpt.2.2 : ℝ)
        (cosine_spacing (max 3 n)))
      (lower_surface (mpt.1 : ℝ) (mpt.2.1 : ℝ) (mpt.2.2 : ℝ)
        (cosine_spacing (max 3 n)))).map (fun q => 1 * q.1) := by
    have := List.mem_map_of_mem (fun q : ℝ × ℝ => 1 * q.1) hmem0
    simpa using this
  have hmax := le_listMax hin1
  have hmin := listMin_le hin0
  linarith

/-! ## Claim theorems -/

/-- C3: for every total `t ≥ 3`, `n = compute_n_per_surface_from_total t`
satisfies `2*n - 1 ≥ t`, and `n` is minimal: no smaller valid per-surface
count `n' ≥ 3` satisfies `2*n' - 1 ≥ t`. -/
theorem compute_n_per_surface_spec (t : ℤ) (h : 3 ≤ t) :
    t ≤ 2 * compute_n_per_surface_from_total t - 1 ∧
    ∀ n' : ℤ, 3 ≤ n' → t ≤ 2 * n' - 1 →
      compute_n_per_surface_from_total t ≤ n' := by
  unfold compute_n_per_surface_from_total
  constructor
  · have hceil : ((t : ℚ) + 1) / 2 ≤ (⌈((t : ℚ) + 1) / 2⌉ : ℚ) := Int.le_ceil _
    have h2 : (t : ℚ) + 1 ≤ 2 * ((⌈((t : ℚ) + 1) / 2⌉ : ℤ) : ℚ) := by linarith
    have h3 : t + 1 ≤ 2 * ⌈((t : ℚ) + 1) / 2⌉ := by exact_mod_cast h2
    have h4 : ⌈((t : ℚ) + 1) / 2⌉ ≤ max 3 ⌈((t : ℚ) + 1) / 2⌉ := le_max_right _ _
    omega
  · intro n' h3' hle
    rw [max_le_iff]
    refine ⟨h3', ?_⟩
    rw [Int.ceil_le]
    have h5 : t + 1 ≤ 2 * n' := by omega
    have h6 : (t : ℚ) + 1 ≤ 2 * (n' : ℚ) := by exact_mod_cast h5
    linarith

theorem compute_n_per_surface_spec_witness :
    (3 : ℤ) ≤ 21 ∧
      (21 ≤ 2 * compute_n_per_surface_from_total 21 - 1 ∧
       ∀ n' : ℤ, 3 ≤ n' → 21 ≤ 2 * n' - 1 →
         compute_n_per_surface_from_total 21 ≤ n') :=
  ⟨by norm_num, compute_n_per_surface_spec 21 (by norm_num)⟩

/-- C10: for max camber `m ∈ (0, 0.09]` and camber location `p ∈ (0, 0.9]`,
the forward and aft camber formulas agree at the branch boundary `x = p`,
both giving camber `m` and slope `0`, so the piecewise camber line is
continuous there regardless of branch assignment. -/
theorem camber_branch_boundary (m p : ℝ) (hm0 : 0 < m) (hm1 : m ≤ 9 / 100)
    (hp0 : 0 < p) (hp1 : p ≤ 9 / 10) :
    camber_fwd m p p = (m, 0) ∧ camber_aft m p p = (m, 0) ∧
      camber_line m p p = (m, 0) := by
  have hpne : p ≠ 0 := ne_of_gt hp0
  have hpne1 : (1 : ℝ) - p ≠ 0 := ne_of_gt (by linarith)
  have hfwd : camber_fwd m p p = (m, 0) := by
    unfold camber_fwd
    have e1 : (m / p ^ 2) * (2 * p * p - p ^ 2) = m := by
      rw [show 2 * p * p - p ^ 2 = p ^ 2 by ring]
      exact div_mul_cancel₀ m (pow_ne_zero 2 hpne)
    have e2 : (2 * m / p ^ 2) * (p - p) = 0 := by ring
    rw [e1, e2]
  have haft : camber_aft m p p = (m, 0) := by
    unfold camber_aft
    have e1 : (m / (1 - p) ^ 2) * ((1 - 2 * p) + 2 * p * p - p ^ 2) = m := by
      rw [show (1 - 2 * p) + 2 * p * p - p ^ 2 = (1 - p) ^ 2 by ring]
      exact div_mul_cancel₀ m (pow_ne_zero 2 hpne1)
    have e2 : (2 * m / (1 - p) ^ 2) * (p - p) = 0 := by ring
    rw [e1, e2]
  refine ⟨hfwd, haft, ?_⟩
  unfold camber_line
  rw [if_neg (by push_neg; exact ⟨ne_of_gt hm0, hpne⟩)]
  rw [if_pos (by norm_num)]
  exact hfwd

theorem camber_branch_boundary_witness :
    (0 : ℝ) < 0.02 ∧ (0.02 : ℝ) ≤ 9 / 100 ∧ (0 : ℝ) < 0.4 ∧
      (0.4 : ℝ) ≤ 9 / 10 ∧
      (camber_fwd 0.02 0.4 0.4 = (0.02, 0) ∧ camber_aft 0.02 0.4 0.4 = (0.02, 0) ∧
        camber_line 0.02 0.4 0.4 = (0.02, 0)) :=
  ⟨by norm_num, by norm_num, by norm_num, by norm_num,
    camber_branch_boundary 0.02 0.4 (by norm_num) (by norm_num) (by norm_num)
      (by norm_num)⟩

/-- C7: for every `n ≥ 3`, `cosine_spacing n` returns exactly `n` values
`x_i = 0.5*(1 - cos(beta_i))` with `beta_i = pi*i/(n-1)` evenly spaced over
`[0, pi]` inclusive of both endpoints; the sequence is strictly increasing
with `x_0 = 0` and `x_(n-1) = 1`. -/
theorem cosine_spacing_spec (n : ℕ) (hn : 3 ≤ n) :
    (cosine_spacing n).length = n ∧
    (∀ i : ℕ, i < n → (cosine_spacing n).get? i =
      some (0.5 * (1 - Real.cos (Real.pi * (i : ℝ) / ((n : ℝ) - 1))))) ∧
    (∀ i : ℕ, Real.pi * ((i : ℝ) + 1) / ((n : ℝ) - 1) -
      Real.pi * (i : ℝ) / ((n : ℝ) - 1) = Real.pi / ((n : ℝ) - 1)) ∧
    Real.pi * ((0 : ℕ) : ℝ) / ((n : ℝ) - 1) = 0 ∧
    Real.pi * ((n - 1 : ℕ) : ℝ) / ((n : ℝ) - 1) = Real.pi ∧
    List.Pairwise (· < ·) (cosine_spacing n) ∧
    (cosine_spacing n).get? 0 = some 0 ∧
    (cosine_spacing n).get? (n - 1) = some 1 := by
  have hn1 : (0 : ℝ) < (n : ℝ) - 1 := by
    have : (3 : ℝ) ≤ (n : ℝ) := by exact_mod_cast hn
    linarith
  have hcast : ((n - 1 : ℕ) : ℝ) = (n : ℝ) - 1 := by
    have h1 : (1 : ℕ) ≤ n := by omega
    push_cast [h1]
    ring
  refine ⟨cosine_spacing_length n, fun i hi => cosine_spacing_get? hi, ?_, ?_, ?_,
    ?_, ?_, ?_⟩
  · intro i
    rw [div_sub_div_same]
    rw [show Real.pi * ((i : ℝ) + 1) - Real.pi * (i : ℝ) = Real.pi by ring]
  · norm_num
  · rw [hcast, mul_div_assoc, div_self (ne_of_gt hn1), mul_one]
  · unfold cosine_spacing
    rw [List.pairwise_map]
    refine List.Pairwise.imp_of_mem ?_ (List.pairwise_lt_range n)
    intro a b ha hb hab
    have hbn := List.mem_range.mp hb
    have hba : (a : ℝ) < (b : ℝ) := by exact_mod_cast hab
    have hb0 : 0 ≤ Real.pi * (a : ℝ) / ((n : ℝ) - 1) := by positivity
    have hbpi : Real.pi * (b : ℝ) / ((n : ℝ) - 1) ≤ Real.pi := by
      rw [div_le_iff₀ hn1]
      have hble : (b : ℝ) ≤ (n : ℝ) - 1 := by
        have : (b : ℝ) + 1 ≤ (n : ℝ) := by exact_mod_cast hbn
        linarith
      nlinarith [Real.pi_pos]
    have hlt : Real.pi * (a : ℝ) / ((n : ℝ) - 1) <
        Real.pi * (b : ℝ) / ((n : ℝ) - 1) := by
      have h1 : Real.pi * (a : ℝ) < Real.pi * (b : ℝ) := by
        nlinarith [Real.pi_pos]
      have h2 := mul_lt_mul_of_pos_right h1 (inv_pos.mpr hn1)
      rw [div_eq_mul_inv, div_eq_mul_inv]
      exact h2
    have hcos := Real.cos_lt_cos_of_nonneg_of_le_pi hb0 hbpi hlt
    linarith
  · rw [cosine_spacing_get? (by omega : 0 < n)]
    norm_num
  · rw [cosine_spacing_get? (by omega : n - 1 < n)]
    rw [hcast, mul_div_assoc, div_self (ne_of_gt hn1), mul_one, Real.cos_pi]
    norm_num

theorem cosine_spacing_spec_witness :
    (3 : ℕ) ≤ 3 ∧
    ((cosine_spacing 3).length = 3 ∧
     (∀ i : ℕ, i < 3 → (cosine_spacing 3).get? i =
       some (0.5 * (1 - Real.cos (Real.pi * (i : ℝ) / ((3 : ℝ) - 1))))) ∧
     (∀ i : ℕ, Real.pi * ((i : ℝ) + 1) / ((3 : ℝ) - 1) -
       Real.pi * (i : ℝ) / ((3 : ℝ) - 1) = Real.pi / ((3 : ℝ) - 1)) ∧
     Real.pi * ((0 : ℕ) : ℝ) / ((3 : ℝ) - 1) = 0 ∧
     Real.pi * ((3 - 1 : ℕ) : ℝ) / ((3 : ℝ) - 1) = Real.pi ∧
     List.Pairwise (· < ·) (cosine_spacing 3) ∧
     (cosine_spacing 3).get? 0 = some 0 ∧
     (cosine_spacing 3).get? (3 - 1) = some 1) :=
  ⟨le_refl 3, cosine_spacing_spec 3 (le_refl 3)⟩

/-- C8: for every parsable code and requested per-surface count (clamped to
at least 3), the assembled loop is the reversed upper surface followed by
the lower surface with its first point dropped; its length is `2*N - 1` for
`N = max 3 n`, hence always at least 5 points. -/
theorem loop_assembly_spec (code : String) (mpt : ℚ × ℚ × ℚ) (n : ℕ)
    (h : parse_naca code = some mpt) :
    (generate_naca4 code n).getD [] =
      (upper_surface (mpt.1 : ℝ) (mpt.2.1 : ℝ) (mpt.2.2 : ℝ)
        (cosine_spacing (max 3 n))).reverse ++
      (lower_surface (mpt.1 : ℝ) (mpt.2.1 : ℝ) (mpt.2.2 : ℝ)
        (cosine_spacing (max 3 n))).tail ∧
    ((generate_naca4 code n).getD []).length = 2 * max 3 n - 1 ∧
    5 ≤ ((generate_naca4 code n).getD []).length := by
  have hlen := generate_loop_length (n := n) h
  have h3 : 3 ≤ max 3 n := le_max_left 3 n
  refine ⟨?_, hlen, by omega⟩
  rw [generate_naca4_eq h, Option.getD_some]
  apply assemble_loop_eq_of_long
  rw [lower_surface_length, cosine_spacing_length]
  omega

theorem loop_assembly_spec_witness :
    parse_naca "2412" = some (1/50, 2/5, 3/25) ∧
    ((generate_naca4 "2412" 4).getD [] =
      (upper_surface ((1/50 : ℚ) : ℝ) ((2/5 : ℚ) : ℝ) ((3/25 : ℚ) : ℝ)
        (cosine_spacing (max 3 4))).reverse ++
      (lower_surface ((1/50 : ℚ) : ℝ) ((2/5 : ℚ) : ℝ) ((3/25 : ℚ) : ℝ)
        (cosine_spacing (max 3 4))).tail ∧
    ((generate_naca4 "2412" 4).getD []).length = 2 * max 3 4 - 1 ∧
    5 ≤ ((generate_naca4 "2412" 4).getD []).length) :=
  ⟨parse_naca_2412, loop_assembly_spec "2412" (1/50, 2/5, 3/25) 4 parse_naca_2412⟩

/-- C9: for every parsable code with zero max camber and every per-surface
count, the loop is symmetric about `y = 0`: at each parameter value the
upper and lower x-values agree and the y-values are exact negatives. -/
theorem symmetric_code_loop_symmetry (code : String) (mpt : ℚ × ℚ × ℚ) (n : ℕ)
    (h : parse_naca code = some mpt) (hm : mpt.1 = 0) :
    ∀ q ∈ (upper_surface (mpt.1 : ℝ) (mpt.2.1 : ℝ) (mpt.2.2 : ℝ)
        (cosine_spacing (max 3 n))).zip
      (lower_surface (mpt.1 : ℝ) (mpt.2.1 : ℝ) (mpt.2.2 : ℝ)
        (cosine_spacing (max 3 n))),
      q.1.1 = q.2.1 ∧ q.1.2 = -q.2.2 := by
  intro q hq
  have hm' : (mpt.1 : ℝ) = 0 := by exact_mod_cast hm
  unfold upper_surface lower_surface at hq
  rw [List.zip_map'] at hq
  rcases List.mem_map.mp hq with ⟨x, hx, rfl⟩
  constructor
  · show xu_pt _ _ _ x = xl_pt _ _ _ x
    rw [xu_pt_symm (Or.inl hm'), xl_pt_symm (Or.inl hm')]
  · show yu_pt _ _ _ x = -yl_pt _ _ _ x
    rw [yu_pt_symm (Or.inl hm'), yl_pt_symm (Or.inl hm'), neg_neg]

theorem symmetric_code_loop_symmetry_witness :
    parse_naca "0012" = some (0, 0, 3/25) ∧ ((0 : ℚ), (0 : ℚ), (3/25 : ℚ)).1 = 0 ∧
    ∀ q ∈ (upper_surface (((0 : ℚ)) : ℝ) (((0 : ℚ)) : ℝ) (((3/25 : ℚ)) : ℝ)
        (cosine_spacing (max 3 21))).zip
      (lower_surface (((0 : ℚ)) : ℝ) (((0 : ℚ)) : ℝ) (((3/25 : ℚ)) : ℝ)
        (cosine_spacing (max 3 21))),
      q.1.1 = q.2.1 ∧ q.1.2 = -q.2.2 :=
  ⟨parse_naca_0012, rfl,
    symmetric_code_loop_symmetry "0012" (0, 0, 3/25) 21 parse_naca_0012 rfl⟩

/-- C4: the validator's degeneracy error fires iff the bounding-box span is
zero along every axis, i.e. all points coincide; in particular code "0000"
with chord 1 passes validation, its x-span being nonzero. -/
theorem validator_degenerate_iff (pts : List (ℝ × ℝ × ℝ)) (n : ℕ)
    (hne : pts ≠ []) :
    (¬ validate_geometry pts ↔ ∀ a ∈ pts, ∀ b ∈ pts, a = b) ∧
    validate_geometry (map_to_3d ((generate_naca4 "0000" n).getD [])
      Axis.Z 1) := by
  constructor
  · unfold validate_geometry spanX spanY spanZ
    rw [not_not]
    have hXne : (pts.map fun q : ℝ × ℝ × ℝ => q.1) ≠ [] := by
      simpa using hne
    have hYne : (pts.map fun q : ℝ × ℝ × ℝ => q.2.1) ≠ [] := by
      simpa using hne
    have hZne : (pts.map fun q : ℝ × ℝ × ℝ => q.2.2) ≠ [] := by
      simpa using hne
    rw [span_zero_iff hXne, span_zero_iff hYne, span_zero_iff hZne]
    constructor
    · rintro ⟨h1, h2, h3⟩ a ha b hb
      have e1 := h1 a.1 (List.mem_map_of_mem _ ha) b.1 (List.mem_map_of_mem _ hb)
      have e2 := h2 a.2.1 (List.mem_map_of_mem _ ha) b.2.1
        (List.mem_map_of_mem _ hb)
      have e3 := h3 a.2.2 (List.mem_map_of_mem _ ha) b.2.2
        (List.mem_map_of_mem _ hb)
      exact Prod.ext e1 (Prod.ext e2 e3)
    · intro h
      refine ⟨?_, ?_, ?_⟩ <;>
      · intro u hu v hv
        rcases List.mem_map.mp hu with ⟨a, ha, rfl⟩
        rcases List.mem_map.mp hv with ⟨b, hb, rfl⟩
        rw [h a ha b hb]
  · exact validate_symmetric_code parse_naca_0000 (Or.inl (by norm_num))

theorem validator_degenerate_iff_witness :
    ([((0 : ℝ), (0 : ℝ), (0 : ℝ))] : List (ℝ × ℝ × ℝ)) ≠ [] ∧
    ((¬ validate_geometry [((0 : ℝ), (0 : ℝ), (0 : ℝ))] ↔
      ∀ a ∈ [((0 : ℝ), (0 : ℝ), (0 : ℝ))],
        ∀ b ∈ [((0 : ℝ), (0 : ℝ), (0 : ℝ))], a = b) ∧
     validate_geometry (map_to_3d ((generate_naca4 "0000" 5).getD [])
       Axis.Z 1)) :=
  ⟨by simp, validator_degenerate_iff [((0 : ℝ), (0 : ℝ), (0 : ℝ))] 5 (by simp)⟩

/-- C2 counterexample: for code "1012" (nonzero max camber, camber location
exactly 0) the camber evaluation takes the `m == 0 or p == 0` zero branch
instead of dividing by zero, and the run validates successfully instead of
failing with NonFiniteGeometry. -/
theorem camber_p_zero_cex :
    camber_line 0.01 0 0.5 = (0, 0) ∧
    validate_geometry (map_to_3d ((generate_naca4 "1012" 3).getD [])
      Axis.Z 1) :=
  ⟨camber_line_zero (Or.inr rfl) 0.5,
   validate_symmetric_code parse_naca_1012 (Or.inr (by norm_num))⟩

/-- C2 (amended): a camber-location fraction of exactly 0 combined with
nonzero max camber takes the symmetric zero branch of `camber_line`: camber
value and slope are identically zero and the division by `p` is never
evaluated, so the "1012" run produces finite geometry and passes
validation rather than failing with NonFiniteGeometry. -/
theorem camber_p_zero_symmetric_branch (m : ℝ) (hm : m ≠ 0) :
    (∀ x : ℝ, camber_line m 0 x = (0, 0)) ∧
    validate_geometry (map_to_3d ((generate_naca4 "1012" 3).getD [])
      Axis.Z 1) :=
  ⟨fun x => camber_line_zero (Or.inr rfl) x,
   validate_symmetric_code parse_naca_1012 (Or.inr (by norm_num))⟩

theorem camber_p_zero_symmetric_branch_witness :
    (0.01 : ℝ) ≠ 0 ∧
    ((∀ x : ℝ, camber_line 0.01 0 x = (0, 0)) ∧
     validate_geometry (map_to_3d ((generate_naca4 "1012" 3).getD [])
       Axis.Z 1)) :=
  ⟨by norm_num, camber_p_zero_symmetric_branch 0.01 (by norm_num)⟩

/-! ## The NACA 2412 eleven-point loop -/

theorem generate_2412_eq : (generate_naca4 "2412" 11).getD [] =
    assemble_loop (upper_surface 0.02 0.4 0.12 (cosine_spacing 11))
      (lower_surface 0.02 0.4 0.12 (cosine_spacing 11)) := by
  rw [generate_naca4_eq parse_naca_2412, Option.getD_some]
  norm_num

/-- C1 counterexample: for the valid cambered code "2412" with 11 points per
surface, the trailing-edge upper-surface point is produced by the pipeline
and its x-coordinate (before chord scaling) exceeds 1: the aft camber slope
is negative there, so `xu = x - yt*sin(theta) > x = 1`. -/
theorem xu_exceeds_one_2412 :
    (xu_pt 0.02 0.4 0.12 1, yu_pt 0.02 0.4 0.12 1) ∈
      (generate_naca4 "2412" 11).getD [] ∧
    1 < xu_pt 0.02 0.4 0.12 1 := by
  constructor
  · rw [generate_2412_eq]
    exact mem_assemble_loop_of_mem_upper
      (lower_surface 0.02 0.4 0.12 (cosine_spacing 11))
      (mem_upper_surface (one_mem_cosine_spacing (by norm_num)))
  · linarith [xu_pt_2412_TE]

/-- C1 (amended): for every parsable code on which the symmetric-camber
guard fires (zero max camber or zero camber location) and every requested
per-surface count, every 2D loop point produced before chord scaling has
its x-coordinate in [0, 1] (it equals the parameter value); for cambered
codes the trailing-edge x-coordinate can exceed 1. -/
theorem xcoords_unit_interval_symmetric (code : String) (mpt : ℚ × ℚ × ℚ)
    (n : ℕ) (h : parse_naca code = some mpt)
    (hsym : mpt.1 = 0 ∨ mpt.2.1 = 0) :
    ∀ q ∈ (generate_naca4 code n).getD [], 0 ≤ q.1 ∧ q.1 ≤ 1 := by
  intro q hq
  rw [generate_naca4_eq h, Option.getD_some] at hq
  have hsym' : (mpt.1 : ℝ) = 0 ∨ (mpt.2.1 : ℝ) = 0 := by
    rcases hsym with h1 | h1
    · exact Or.inl (by exact_mod_cast h1)
    · exact Or.inr (by exact_mod_cast h1)
  exact cosine_spacing_mem_Icc (loop_x_symm hsym' hq)

theorem xcoords_unit_interval_symmetric_witness :
    parse_naca "0012" = some (0, 0, 3/25) ∧
    (((0 : ℚ), (0 : ℚ), (3/25 : ℚ)).1 = 0 ∨ ((0 : ℚ), (0 : ℚ), (3/25 : ℚ)).2.1 = 0) ∧
    ∀ q ∈ (generate_naca4 "0012" 7).getD [], 0 ≤ q.1 ∧ q.1 ≤ 1 :=
  ⟨parse_naca_0012, Or.inl rfl,
    xcoords_unit_interval_symmetric "0012" (0, 0, 3/25) 7 parse_naca_0012
      (Or.inl rfl)⟩

/-- C6 counterexample: `parse_naca` strips whitespace before checking, so
the 5-character input " 2412" succeeds even though it is not exactly 4
characters long. -/
theorem parse_naca_strip_cex :
    (parse_naca " 2412").isSome = true ∧ (" 2412" : String).length ≠ 4 :=
  ⟨rfl, by decide⟩

/-- C6 (amended): the parser succeeds exactly on strings whose
whitespace-stripped form is exactly 4 decimal digits (so strings with
leading/trailing whitespace around 4 digits also succeed), and on success
returns `(digit1/100, digit2/10, two-digit-value/100)` read from the
stripped form. -/
theorem parse_naca_spec (s : String) :
    ((parse_naca s).isSome = true ↔
      ((pyStrip s.data).length = 4 ∧ ∀ ch ∈ pyStrip s.data, ch.isDigit = true)) ∧
    (∀ m p t : ℚ, parse_naca s = some (m, p, t) →
      ∃ c0 c1 c2 c3 : Char, pyStrip s.data = [c0, c1, c2, c3] ∧
        m = (digitVal c0 : ℚ) / 100 ∧ p = (digitVal c1 : ℚ) / 10 ∧
        t = ((10 * digitVal c2 + digitVal c3 : ℕ) : ℚ) / 100) := by
  rcases hs : pyStrip s.data with _ | ⟨c0, _ | ⟨c1, _ | ⟨c2, _ | ⟨c3, _ | ⟨c4, tl⟩⟩⟩⟩⟩
  · have hp : parse_naca s = none := by
      unfold parse_naca
      rw [hs]
    rw [hp]
    simp
  · have hp : parse_naca s = none := by
      unfold parse_naca
      rw [hs]
    rw [hp]
    simp
  · have hp : parse_naca s = none := by
      unfold parse_naca
      rw [hs]
    rw [hp]
    simp
  · have hp : parse_naca s = none := by
      unfold parse_naca
      rw [hs]
    rw [hp]
    simp
  · have hp : parse_naca s =
        (if c0.isDigit && c1.isDigit && c2.isDigit && c3.isDigit then
          some ((digitVal c0 : ℚ) / 100, (digitVal c1 : ℚ) / 10,
            ((10 * digitVal c2 + digitVal c3 : ℕ) : ℚ) / 100)
        else none) := by
      unfold parse_naca
      rw [hs]
    by_cases hd : (c0.isDigit && c1.isDigit && c2.isDigit && c3.isDigit) = true
    · rw [if_pos hd] at hp
      simp only [Bool.and_eq_true] at hd
      obtain ⟨⟨⟨h0, h1⟩, h2⟩, h3⟩ := hd
      constructor
      · rw [hp]
        simp only [Option.isSome_some, List.length_cons, List.length_nil,
          List.mem_cons, List.not_mem_nil]
        constructor
        · intro _
          refine ⟨by norm_num, ?_⟩
          intro ch hch
          rcases hch with rfl | rfl | rfl | rfl | hfalse
          · exact h0
          · exact h1
          · exact h2
          · exact h3
          · cases hfalse
        · intro _
          trivial
      · intro m p t hmpt
        rw [hp] at hmpt
        have hinj := Option.some_injective _ hmpt
        refine ⟨c0, c1, c2, c3, rfl, ?_, ?_, ?_⟩
        · exact (congrArg Prod.fst hinj).symm
        · exact (congrArg (fun q : ℚ × ℚ × ℚ => q.2.1) hinj).symm
        · exact (congrArg (fun q : ℚ × ℚ × ℚ => q.2.2) hinj).symm
    · rw [if_neg hd] at hp
      constructor
      · rw [hp]
        simp only [Option.isSome_none, Bool.false_eq_true, false_iff, not_and]
        intro _
        intro hall
        apply hd
        simp only [Bool.and_eq_true]
        exact ⟨⟨⟨hall c0 (by simp), hall c1 (by simp)⟩, hall c2 (by simp)⟩,
          hall c3 (by simp)⟩
      · intro m p t hmpt
        rw [hp] at hmpt
        cases hmpt
  · have hp : parse_naca s = none := by
      unfold parse_naca
      rw [hs]
    rw [hp]
    constructor
    · simp only [Option.isSome_none, Bool.false_eq_true, false_iff, not_and]
      intro hlen
      simp only [List.length_cons] at hlen
      omega
    · intro m p t hmpt
      cases hmpt

theorem parse_naca_spec_witness :
    ((parse_naca "2412").isSome = true ↔
      ((pyStrip "2412".data).length = 4 ∧
        ∀ ch ∈ pyStrip "2412".data, ch.isDigit = true)) ∧
    (∀ m p t : ℚ, parse_naca "2412" = some (m, p, t) →
      ∃ c0 c1 c2 c3 : Char, pyStrip "2412".data = [c0, c1, c2, c3] ∧
        m = (digitVal c0 : ℚ) / 100 ∧ p = (digitVal c1 : ℚ) / 10 ∧
        t = ((10 * digitVal c2 + digitVal c3 : ℕ) : ℚ) / 100) :=
  parse_naca_spec "2412"

/-! ## X-extent of the scaled NACA 2412 loop -/

theorem loop_2412_length :
    (assemble_loop (upper_surface 0.02 0.4 0.12 (cosine_spacing 11))
      (lower_surface 0.02 0.4 0.12 (cosine_spacing 11))).length = 21 := by
  rw [assemble_loop_length_of_long
      (by rw [lower_surface_length, cosine_spacing_length]; norm_num),
    upper_surface_length, lower_surface_length, cosine_spacing_length]

theorem compute_n_21 : compute_n_per_surface_from_total 21 = 11 := by
  unfold compute_n_per_surface_from_total
  rw [show (((21 : ℤ) : ℚ) + 1) / 2 = ((11 : ℤ) : ℚ) by norm_num, Int.ceil_intCast]
  norm_num

theorem loop_2412_x_bounds {q : ℝ × ℝ}
    (hq : q ∈ assemble_loop (upper_surface 0.02 0.4 0.12 (cosine_spacing 11))
      (lower_surface 0.02 0.4 0.12 (cosine_spacing 11))) :
    -(11 / 1000) ≤ q.1 ∧ q.1 ≤ 1 + 11 / 1000 := by
  rcases mem_assemble_loop hq with h | h
  · rcases mem_upper_surface_elim h with ⟨x, hx, rfl⟩
    have hxI := cosine_spacing_mem_Icc hx
    exact xu_pt_2412_bounds hxI.1 hxI.2
  · rcases mem_lower_surface_elim h with ⟨x, hx, rfl⟩
    have hxI := cosine_spacing_mem_Icc hx
    exact xl_pt_2412_bounds hxI.1 hxI.2

theorem span_2412_lower :
    2 + 14 / 125000 ≤
      spanX (map_to_3d ((generate_naca4 "2412" 11).getD []) Axis.Z 2) := by
  rw [generate_2412_eq]
  unfold spanX
  rw [map_to_3d_Z_x_col]
  have hmem1 := mem_assemble_loop_of_mem_upper
    (lower_surface 0.02 0.4 0.12 (cosine_spacing 11))
    (mem_upper_surface (m := 0.02) (p := 0.4) (t := 0.12)
      (one_mem_cosine_spacing (n := 11) (by norm_num)))
  have hmem0 := mem_assemble_loop_of_mem_upper
    (lower_surface 0.02 0.4 0.12 (cosine_spacing 11))
    (mem_upper_surface (m := 0.02) (p := 0.4) (t := 0.12)
      (zero_mem_cosine_spacing (n := 11) (by norm_num)))
  have h1 : 2 * xu_pt 0.02 0.4 0.12 1 ∈
      (assemble_loop (upper_surface 0.02 0.4 0.12 (cosine_spacing 11))
        (lower_surface 0.02 0.4 0.12 (cosine_spacing 11))).map
        (fun q => 2 * q.1) := by
    simpa using List.mem_map_of_mem (fun q : ℝ × ℝ => 2 * q.1) hmem1
  have h0 : 2 * xu_pt 0.02 0.4 0.12 0 ∈
      (assemble_loop (upper_surface 0.02 0.4 0.12 (cosine_spacing 11))
        (lower_surface 0.02 0.4 0.12 (cosine_spacing 11))).map
        (fun q => 2 * q.1) := by
    simpa using List.mem_map_of_mem (fun q : ℝ × ℝ => 2 * q.1) hmem0
  have hmax := le_listMax h1
  have hmin := listMin_le h0
  rw [xu_pt_at_zero] at hmin
  have hTE := xu_pt_2412_TE
  linarith

theorem span_2412_upper :
    spanX (map_to_3d ((generate_naca4 "2412" 11).getD []) Axis.Z 2) ≤
      2 + 44 / 1000 := by
  rw [generate_2412_eq]
  unfold spanX
  rw [map_to_3d_Z_x_col]
  have hne : (assemble_loop (upper_surface 0.02 0.4 0.12 (cosine_spacing 11))
      (lower_surface 0.02 0.4 0.12 (cosine_spacing 11))).map
      (fun q => 2 * q.1) ≠ [] := by
    intro hc
    have hc' := congrArg List.length hc
    rw [List.length_map, loop_2412_length] at hc'
    simp at hc'
  have hub : ∀ y ∈ (assemble_loop
      (upper_surface 0.02 0.4 0.12 (cosine_spacing 11))
      (lower_surface 0.02 0.4 0.12 (cosine_spacing 11))).map
      (fun q => 2 * q.1), y ≤ 2 * (1 + 11 / 1000) := by
    intro y hy
    rcases List.mem_map.mp hy with ⟨q, hq, rfl⟩
    have hb := (loop_2412_x_bounds hq).2
    linarith
  have hlb : ∀ y ∈ (assemble_loop
      (upper_surface 0.02 0.4 0.12 (cosine_spacing 11))
      (lower_surface 0.02 0.4 0.12 (cosine_spacing 11))).map
      (fun q => 2 * q.1), -(2 * (11 / 1000)) ≤ y := by
    intro y hy
    rcases List.mem_map.mp hy with ⟨q, hq, rfl⟩
    have hb := (loop_2412_x_bounds hq).1
    linarith
  have hmax := listMax_le hne hub
  have hmin := le_listMin hne hlb
  linarith

/-- C5 counterexample: code "2412" with totalPoints 21 resolves to 11 points
per surface, but with chord 2 and normal axis Z the X extent exceeds 2.0 by
the doubled trailing-edge overshoot (at least 1.12e-4), so max(X) - min(X)
is NOT within 1e-6 of 2.0 as claimed. -/
theorem span_2412_tolerance_cex :
    compute_n_per_surface_from_total 21 = 11 ∧
    ¬ (|spanX (map_to_3d ((generate_naca4 "2412" 11).getD []) Axis.Z 2) - 2| ≤
       1 / 1000000) := by
  refine ⟨compute_n_21, ?_⟩
  intro hc
  rw [abs_le] at hc
  linarith [span_2412_lower]

/-- C5 (amended): code "2412" with totalPoints 21 resolves to 11 points per
surface and a 21-point output loop; with chord 2.0 and normal axis Z every
output point has Z = 0.0 exactly, and max(X) - min(X) is within 5e-2 of 2.0
(it exceeds 2.0 slightly because the trailing-edge upper x-coordinate
exceeds the chord; the claimed 1e-6 tolerance is too tight). -/
theorem scenario_2412_21pts :
    compute_n_per_surface_from_total 21 = 11 ∧
    ((generate_naca4 "2412" 11).getD []).length = 21 ∧
    ((map_to_3d ((generate_naca4 "2412" 11).getD []) Axis.Z 2).map
      (fun q => q.2.2)) = List.replicate 21 (0 : ℝ) ∧
    |spanX (map_to_3d ((generate_naca4 "2412" 11).getD []) Axis.Z 2) - 2| ≤
      5 / 100 := by
  refine ⟨compute_n_21, ?_, ?_, ?_⟩
  · rw [generate_2412_eq]
    exact loop_2412_length
  · rw [generate_2412_eq, map_to_3d_Z_z_col, loop_2412_length]
  · rw [abs_le]
    constructor
    · linarith [span_2412_lower]
    · linarith [span_2412_upper]
